import Mathlib

/-!
Verification of the sebak ISAAC consensus state manager and the
block-operation index against their specification.

The Go sources embedded here:
  * lib/node/runner/isaac_state_manager.go  — timed consensus state machine
    (calculateBlockTimeBuffer, calculateAverageBlockTime, TransitISAACState,
    the Start() event loop, broadcastExpiredBallot, resetTimer, proposeOrWait)
  * the BlockOperation store (package block) — Save, ExistsBlockOperation,
    key construction and prefix iteration.

Go machine integers are embedded as Nat/Int with explicit two's-complement
wrapping where the source can overflow (time.Duration is int64; block heights
are uint64).  Byte strings are embedded as List Nat.
-/

/-! ## int64 / uint64 arithmetic helpers -/

/-- Two's-complement wrap of an integer into the int64 range
`[-2^63, 2^63)`; models Go int64 overflow. -/
def wrap64 (x : Int) : Int :=
  (x + 2 ^ 63) % 2 ^ 64 - 2 ^ 63

/-- Reinterpret a uint64 value (a natural number `< 2^64`) as a Go int64,
as the Go conversion `int64(u)` / `time.Duration(u)` does. -/
def uint64ToInt64 (n : Nat) : Int :=
  wrap64 (n : Int)

/-- Go int64 division: truncation toward zero, with the single overflow case
`minInt64 / -1` wrapping back to `minInt64` (Go spec behaviour). -/
def divInt64 (a b : Int) : Int :=
  wrap64 (Int.tdiv a b)

theorem wrap64_eq_self {x : Int} (h1 : -(2 ^ 63) ≤ x) (h2 : x < 2 ^ 63) :
    wrap64 x = x := by
  unfold wrap64
  omega

theorem uint64ToInt64_of_lt {n : Nat} (h : n < 2 ^ 63) :
    uint64ToInt64 n = (n : Int) := by
  unfold uint64ToInt64
  apply wrap64_eq_self <;> omega

/-! ## Block-time pacer (isaac_state_manager.go)

`calculateBlockTimeBuffer(goal, average, untilNow, delta)` from the source,
with `time.Duration` values embedded as `Int` nanoseconds and every
arithmetic step wrapped to int64 as Go does. -/

def calculateBlockTimeBuffer (goal average untilNow delta : Int) : Int :=
  let epsilon : Int := 50000000
  let blockTimeBuffer : Int :=
    if goal ≤ average then
      if wrap64 (average - goal) < epsilon then
        wrap64 (goal - untilNow)
      else
        wrap64 (wrap64 (goal - delta) - untilNow)
    else
      if wrap64 (goal - average) < epsilon then
        wrap64 (goal - untilNow)
      else
        wrap64 (wrap64 (goal + delta) - untilNow)
  if blockTimeBuffer < 0 then 0 else blockTimeBuffer

/-- `calculateAverageBlockTime(genesis, blockHeight)` from the source.
`time.Now()` is passed explicitly as `now`; `blockHeight` is a uint64, so
`blockHeight - genesisBlockHeight` wraps modulo `2^64`, and the division
`sinceGenesis / time.Duration(height)` converts the uint64 `height`
to int64 first. -/
def calculateAverageBlockTime (now genesis : Int) (blockHeight : Nat) : Int :=
  let genesisBlockHeight : Nat := 1
  let height : Nat := (blockHeight + 2 ^ 64 - genesisBlockHeight) % 2 ^ 64
  let sinceGenesis : Int := now - genesis
  if height = 0 then
    sinceGenesis
  else
    divInt64 sinceGenesis (uint64ToInt64 height)

/-- C2 counterexample: with `goal = average = -1 s` and `untilNow = 0` the
claimed value is `goal`, but the final clamp returns `0`, not `goal`.
(Go `time.Duration` is a signed int64, so negative durations are inputs.) -/
theorem c2_counterexample :
    calculateBlockTimeBuffer (-1000000000) (-1000000000) 0 1000000000 = 0 ∧
      (0 : Int) ≠ -1000000000 := by
  constructor
  · decide
  · decide

/-- C2 (amended): for non-negative int64 durations below `2^62` ns and
`delta = 1 s`, the buffer is `max 0 (goal - untilNow)` inside the 50 ms
deadband, `max 0 (goal - delta - untilNow)` when the average exceeds the goal
by at least epsilon, `max 0 (goal + delta - untilNow)` when it falls short by
at least epsilon; the result is never negative, and it equals `goal` when
`average = goal` and `untilNow = 0`. -/
theorem calculateBlockTimeBuffer_spec (goal average untilNow : Int)
    (hg0 : 0 ≤ goal) (hg1 : goal < 2 ^ 62)
    (ha0 : 0 ≤ average) (ha1 : average < 2 ^ 62)
    (hu0 : 0 ≤ untilNow) (hu1 : untilNow < 2 ^ 62) :
    0 ≤ calculateBlockTimeBuffer goal average untilNow 1000000000 ∧
    (average - goal < 50000000 → goal - average < 50000000 →
      calculateBlockTimeBuffer goal average untilNow 1000000000 =
        max 0 (goal - untilNow)) ∧
    (50000000 ≤ average - goal →
      calculateBlockTimeBuffer goal average untilNow 1000000000 =
        max 0 (goal - 1000000000 - untilNow)) ∧
    (50000000 ≤ goal - average →
      calculateBlockTimeBuffer goal average untilNow 1000000000 =
        max 0 (goal + 1000000000 - untilNow)) ∧
    (average = goal → untilNow = 0 →
      calculateBlockTimeBuffer goal average untilNow 1000000000 = goal) := by
  have e1 : wrap64 (average - goal) = average - goal :=
    wrap64_eq_self (by omega) (by omega)
  have e2 : wrap64 (goal - average) = goal - average :=
    wrap64_eq_self (by omega) (by omega)
  have e3 : wrap64 (goal - untilNow) = goal - untilNow :=
    wrap64_eq_self (by omega) (by omega)
  have e4 : wrap64 (goal - 1000000000) = goal - 1000000000 :=
    wrap64_eq_self (by omega) (by omega)
  have e5 : wrap64 (goal - 1000000000 - untilNow) = goal - 1000000000 - untilNow :=
    wrap64_eq_self (by omega) (by omega)
  have e6 : wrap64 (goal + 1000000000) = goal + 1000000000 :=
    wrap64_eq_self (by omega) (by omega)
  have e7 : wrap64 (goal + 1000000000 - untilNow) = goal + 1000000000 - untilNow :=
    wrap64_eq_self (by omega) (by omega)
  unfold calculateBlockTimeBuffer
  simp only [e1, e2, e4, e5, e6, e7, e3]
  refine ⟨?_, ?_, ?_, ?_, ?_⟩ <;> intros <;> split_ifs <;> omega

/-- Witness for C2's amended theorem, at the spec's S3 scenario
(`goal = 5 s`, `average = 5.02 s`, `untilNow = 1 s`): the deadband case
yields a buffer of 4 s. -/
theorem calculateBlockTimeBuffer_spec_witness :
    (0 ≤ (5000000000 : Int) ∧ (5000000000 : Int) < 2 ^ 62 ∧
     0 ≤ (5020000000 : Int) ∧ (5020000000 : Int) < 2 ^ 62 ∧
     0 ≤ (1000000000 : Int) ∧ (1000000000 : Int) < 2 ^ 62) ∧
    calculateBlockTimeBuffer 5000000000 5020000000 1000000000 1000000000 =
      max 0 (5000000000 - 1000000000 : Int) := by
  refine ⟨by decide, ?_⟩
  exact (calculateBlockTimeBuffer_spec 5000000000 5020000000 1000000000
    (by decide) (by decide) (by decide) (by decide) (by decide)
    (by decide)).2.1 (by decide) (by decide)

theorem tdiv_le_self_of_nonneg {a b : Int} (ha : 0 ≤ a) (hb : 1 ≤ b) :
    Int.tdiv a b ≤ a := by
  rw [Int.tdiv_eq_ediv ha (by omega)]
  exact Int.ediv_le_self _ ha

/-- C8 counterexample: at `blockHeight = 2^64 - 1` (a uint64 value in the
claim's range) with 10 ns elapsed, the uint64 height `2^64 - 2` converts to
the int64 `-2`, so the code returns `-5`, while the claimed value
`10 / max(1, blockHeight - 1)` is `0`. -/
theorem c8_counterexample :
    calculateAverageBlockTime 10 0 (2 ^ 64 - 1) = -5 ∧
      Int.tdiv 10 (max 1 ((2 ^ 64 - 1 : Int) - 1)) = 0 ∧ (-5 : Int) ≠ 0 := by
  refine ⟨by decide, by decide, by decide⟩

/-- C8 (amended): for `1 ≤ blockHeight ≤ 2^63` (so `blockHeight - 1` stays in
the non-negative int64 range after the uint64-to-int64 conversion) and an
elapsed time `now - genesis` in the int64 range, `calculateAverageBlockTime`
returns `(now - genesis) / max(1, blockHeight - 1)` with Go's
truncation-toward-zero division; at `blockHeight = 1` this is the full
elapsed time, at `blockHeight = 2` the same value divided by 1. -/
theorem calculateAverageBlockTime_spec (now genesis : Int) (blockHeight : Nat)
    (hb1 : 1 ≤ blockHeight) (hb2 : blockHeight ≤ 2 ^ 63)
    (hs1 : -(2 ^ 63) ≤ now - genesis) (hs2 : now - genesis < 2 ^ 63) :
    calculateAverageBlockTime now genesis blockHeight =
      Int.tdiv (now - genesis) (max 1 ((blockHeight : Int) - 1)) := by
  simp only [calculateAverageBlockTime]
  have hmod : (blockHeight + 2 ^ 64 - 1) % 2 ^ 64 = blockHeight - 1 := by omega
  rw [hmod]
  rcases Nat.eq_or_lt_of_le hb1 with h1 | h2
  · have hz : blockHeight - 1 = 0 := by omega
    rw [hz]
    rw [if_pos rfl]
    have : max 1 ((blockHeight : Int) - 1) = 1 := by omega
    rw [this, Int.tdiv_one]
  · have hz : ¬ blockHeight - 1 = 0 := by omega
    rw [if_neg hz]
    have hlt : blockHeight - 1 < 2 ^ 63 := by omega
    rw [uint64ToInt64_of_lt hlt]
    have hmax : max 1 ((blockHeight : Int) - 1) = ((blockHeight - 1 : Nat) : Int) := by
      omega
    rw [hmax]
    unfold divInt64
    apply wrap64_eq_self
    · rcases le_or_lt 0 (now - genesis) with hpos | hneg
      · have := Int.tdiv_nonneg hpos (by positivity : (0 : Int) ≤ ((blockHeight - 1 : Nat) : Int))
        omega
      · have he : now - genesis = -(-(now - genesis)) := by omega
        rw [he, Int.neg_tdiv]
        have := tdiv_le_self_of_nonneg (a := -(now - genesis))
          (b := ((blockHeight - 1 : Nat) : Int)) (by omega) (by omega)
        omega
    · rcases le_or_lt 0 (now - genesis) with hpos | hneg
      · have := tdiv_le_self_of_nonneg (a := now - genesis)
          (b := ((blockHeight - 1 : Nat) : Int)) hpos (by omega)
        omega
      · have he : now - genesis = -(-(now - genesis)) := by omega
        rw [he, Int.neg_tdiv]
        have := Int.tdiv_nonneg (a := -(now - genesis))
          (b := ((blockHeight - 1 : Nat) : Int)) (by omega) (by omega)
        omega

/-- Witness for C8's amended theorem: 10 blocks, 90 s since genesis, average
block time 10 s. -/
theorem calculateAverageBlockTime_spec_witness :
    (1 ≤ 10 ∧ 10 ≤ 2 ^ 63 ∧ -(2 ^ 63) ≤ (90000000000 : Int) - 0 ∧
      (90000000000 : Int) - 0 < 2 ^ 63) ∧
    calculateAverageBlockTime 90000000000 0 10 =
      Int.tdiv (90000000000 - 0) (max 1 ((10 : Int) - 1)) := by
  exact ⟨by decide, calculateAverageBlockTime_spec 90000000000 0 10
    (by decide) (by decide) (by decide) (by decide)⟩

/-- C9 counterexample: at `blockHeight = 0` with 5 ns elapsed the function
returns `-5` (division by the int64 reinterpretation `-1` of the underflowed
uint64 `2^64 - 1`), not the claimed value `5 / (2^64 - 1) = 0`. -/
theorem c9_counterexample :
    calculateAverageBlockTime 5 0 0 = -5 ∧
      Int.tdiv 5 ((2 ^ 64 : Int) - 1) = 0 ∧ (-5 : Int) ≠ 0 := by
  refine ⟨by decide, by decide, by decide⟩

/-- C9 (amended): at `blockHeight = 0` the unsigned subtraction
`blockHeight - 1` underflows to `2^64 - 1`, whose conversion to int64
(`time.Duration`) is `-1`; hence for any elapsed time strictly inside the
int64 range the function returns the *negated* elapsed time since genesis
instead of falling back to the elapsed time. -/
theorem calculateAverageBlockTime_at_zero (now genesis : Int)
    (hs1 : -(2 ^ 63) < now - genesis) (hs2 : now - genesis < 2 ^ 63) :
    calculateAverageBlockTime now genesis 0 = -(now - genesis) := by
  simp only [calculateAverageBlockTime]
  have hmod : (0 + 2 ^ 64 - 1) % 2 ^ 64 = 2 ^ 64 - 1 := by norm_num
  rw [hmod]
  rw [if_neg (by norm_num)]
  have hconv : uint64ToInt64 (2 ^ 64 - 1) = -1 := by decide
  rw [hconv]
  unfold divInt64
  have he : (-1 : Int) = -(1 : Int) := by norm_num
  rw [he, Int.tdiv_neg, Int.tdiv_one]
  exact wrap64_eq_self (by omega) (by omega)

/-- Witness for C9's amended theorem: 7 ns elapsed, `blockHeight = 0`,
result `-7`. -/
theorem calculateAverageBlockTime_at_zero_witness :
    (-(2 ^ 63) < (7 : Int) - 0 ∧ (7 : Int) - 0 < 2 ^ 63) ∧
      calculateAverageBlockTime 7 0 0 = -((7 : Int) - 0) := by
  exact ⟨by decide, calculateAverageBlockTime_at_zero 7 0 (by decide) (by decide)⟩

/-! ## ISAAC consensus state (lib/consensus, lib/ballot)

`ballot.State` and `consensus.ISAACState`.  The ballot-state successor and
the `IsLater` order live outside the given sources, so they are modelled
from the spec (ordinals INIT=0, SIGN=1, ACCEPT=2, ALLCONFIRM=3;
lexicographic strict order on (Height, Round, ordinal); `Next()` follows
INIT→SIGN→ACCEPT→ALLCONFIRM, and ALLCONFIRM has no successor). -/

inductive BallotState where
  | INIT
  | SIGN
  | ACCEPT
  | ALLCONFIRM
deriving DecidableEq, Repr

/-- Modelled from the spec: ballot-state ordinals INIT=0, SIGN=1, ACCEPT=2,
ALLCONFIRM=3 (lib/ballot is not among the given sources). -/
def BallotState.ordinal : BallotState → Nat
  | .INIT => 0
  | .SIGN => 1
  | .ACCEPT => 2
  | .ALLCONFIRM => 3

/-- Modelled from the spec: `BallotState.Next()` is the successor
(INIT→SIGN→ACCEPT→ALLCONFIRM); ALLCONFIRM has no successor and is mapped to
itself (lib/ballot is not among the given sources). -/
def BallotState.next : BallotState → BallotState
  | .INIT => .SIGN
  | .SIGN => .ACCEPT
  | .ACCEPT => .ALLCONFIRM
  | .ALLCONFIRM => .ALLCONFIRM

structure ISAACState where
  height : Nat
  round : Nat
  ballotState : BallotState
deriving DecidableEq, Repr

/-- Modelled from the spec: `consensus.ISAACState.IsLater` — `a.IsLater b` is
true iff `b` is strictly later than `a` in the lexicographic order on
`(Height, Round, BallotState ordinal)` (lib/consensus is not among the given
sources). -/
def ISAACState.IsLater (a b : ISAACState) : Bool :=
  decide (a.height < b.height) ||
    (decide (a.height = b.height) &&
      (decide (a.round < b.round) ||
        (decide (a.round = b.round) &&
          decide (a.ballotState.ordinal < b.ballotState.ordinal))))

/-! ## ISAAC state manager (isaac_state_manager.go)

The mutable fields of `ISAACStateManager` that the claims concern, the
per-state timeouts from the configuration, and an environment record
standing for the external collaborators read during an event
(`Consensus().LatestBlock()`, `SelectProposer`, the local node address and
the wall clock). -/

structure Config where
  blockTime : Int
  timeoutINIT : Int
  timeoutSIGN : Int
  timeoutACCEPT : Int
deriving Repr

structure Manager where
  state : ISAACState
  blockTimeBuffer : Int
deriving Repr

inductive VotingHole where
  | YES
  | NO
  | EXP
deriving DecidableEq, Repr

/-- The parts of a ballot the state-manager claims mention: the voting basis
taken from the latest confirmed block, the vote set by `SetVote`, sender and
proposer addresses.  Modelled from the spec for the lib/ballot constructor
(signing and the proposer transaction are outside the model). -/
structure Ballot where
  source : Nat
  proposer : Nat
  basisRound : Nat
  basisHeight : Nat
  basisBlockHash : List Nat
  basisTotalTxs : Nat
  basisTotalOps : Nat
  voteState : BallotState
  vote : VotingHole
deriving DecidableEq, Repr

/-- External inputs read by the event loop: the latest confirmed block, the
wall clock, the genesis timestamp, the local address and the deterministic
proposer selector. -/
structure Env where
  latestHeight : Nat
  latestBlockHash : List Nat
  latestTotalTxs : Nat
  latestTotalOps : Nat
  proposedTime : Int
  now : Int
  genesis : Int
  localAddr : Nat
  selectProposer : Nat → Nat → Nat

/-- `SetBlockTimeBuffer`: the value stored into `sm.blockTimeBuffer`,
computed from the configured block time, the average block time since
genesis, the time since the latest ballot was proposed, and `delta = 1 s`. -/
def setBlockTimeBufferValue (conf : Config) (env : Env) : Int :=
  calculateBlockTimeBuffer
    conf.blockTime
    (calculateAverageBlockTime env.now env.genesis env.latestHeight)
    (env.now - env.proposedTime)
    1000000000

/-- `TransitISAACState(height, round, ballotState)`: reads the current state,
and sends the target on the transition channel only when the target is
strictly later.  The manager itself is not written; the returned list holds
the messages handed to the detached sending task. -/
def TransitISAACState (sm : Manager) (height round : Nat)
    (ballotState : BallotState) : Manager × List ISAACState :=
  if sm.state.IsLater ⟨height, round, ballotState⟩ then
    (sm, [⟨height, round, ballotState⟩])
  else
    (sm, [])

/-- `IncreaseRound()`: reads the current state and requests the transition
to `(Height, Round+1, INIT)`. -/
def IncreaseRound (sm : Manager) : Manager × List ISAACState :=
  TransitISAACState sm sm.state.height (sm.state.round + 1) BallotState.INIT

/-- `NextHeight()`: reads the current state and requests the transition to
`(Height+1, 0, INIT)`. -/
def NextHeight (sm : Manager) : Manager × List ISAACState :=
  TransitISAACState sm (sm.state.height + 1) 0 BallotState.INIT

/-- `broadcastExpiredBallot(state)`: an expiration ballot carrying the latest
block's basis with the expiring state's round, proposed by
`SelectProposer(latest.Height, state.Round)`, voting `EXP` for the successor
ballot state. -/
def broadcastExpiredBallot (env : Env) (state : ISAACState) : Ballot :=
  { source := env.localAddr
    proposer := env.selectProposer env.latestHeight state.round
    basisRound := state.round
    basisHeight := env.latestHeight
    basisBlockHash := env.latestBlockHash
    basisTotalTxs := env.latestTotalTxs
    basisTotalOps := env.latestTotalOps
    voteState := state.ballotState.next
    vote := VotingHole.EXP }

/-- `resetTimer(timer, state)`: the duration the timer is reset to for a
ballot state; `none` when no case matches (ALLCONFIRM leaves the timer
untouched). -/
def resetTimerDuration (conf : Config) : BallotState → Option Int
  | .INIT => some conf.timeoutINIT
  | .SIGN => some conf.timeoutSIGN
  | .ACCEPT => some conf.timeoutACCEPT
  | .ALLCONFIRM => none

/-- The observable outcome of one timer expiry in the `Start()` loop. -/
structure TimerOutcome where
  mgr : Manager
  broadcasts : List Ballot
  timerReset : Option Int
  enqueued : List ISAACState
  signals : List ISAACState
deriving Repr

/-- The `case <-timer.C` arm of the `Start()` event loop: in ACCEPT,
recompute the block-time buffer and run `IncreaseRound` (a
`TransitISAACState(h, r+1, INIT)`); otherwise broadcast one expiration
ballot for the current state, advance the ballot state in place, reset the
timer for the successor state, and emit the transit signal with the new
state. -/
def onTimerExpired (conf : Config) (env : Env) (sm : Manager) : TimerOutcome :=
  if sm.state.ballotState = BallotState.ACCEPT then
    { mgr := (IncreaseRound { sm with blockTimeBuffer := setBlockTimeBufferValue conf env }).1
      broadcasts := []
      timerReset := none
      enqueued := (IncreaseRound { sm with blockTimeBuffer := setBlockTimeBufferValue conf env }).2
      signals := [] }
  else
    { mgr := { sm with state := { sm.state with ballotState := sm.state.ballotState.next } }
      broadcasts := [broadcastExpiredBallot env sm.state]
      timerReset := resetTimerDuration conf sm.state.ballotState.next
      enqueued := []
      signals := [{ sm.state with ballotState := sm.state.ballotState.next }] }


theorem TransitISAACState_sends_of_isLater (sm : Manager) (height round : Nat)
    (bs : BallotState) (hl : sm.state.IsLater ⟨height, round, bs⟩ = true) :
    TransitISAACState sm height round bs = (sm, [⟨height, round, bs⟩]) := by
  unfold TransitISAACState
  rw [if_pos hl]

theorem TransitISAACState_drops_of_not_isLater (sm : Manager) (height round : Nat)
    (bs : BallotState) (hl : sm.state.IsLater ⟨height, round, bs⟩ = false) :
    TransitISAACState sm height round bs = (sm, []) := by
  unfold TransitISAACState
  rw [if_neg (by rw [hl]; exact Bool.false_ne_true)]

theorem isLater_increase_round (h r : Nat) :
    ISAACState.IsLater ⟨h, r, BallotState.ACCEPT⟩ ⟨h, r + 1, BallotState.INIT⟩ = true := by
  simp [ISAACState.IsLater]

theorem isLater_next_height (h r : Nat) (bs : BallotState) :
    ISAACState.IsLater ⟨h, r, bs⟩ ⟨h + 1, 0, BallotState.INIT⟩ = true := by
  simp [ISAACState.IsLater]

/-- C4: `TransitISAACState` leaves the manager untouched and sends exactly
the target `(height, round, ballotState)` when it is strictly later than the
current state, and sends nothing otherwise (the call has no error path). -/
theorem TransitISAACState_gate (sm : Manager) (height round : Nat)
    (bs : BallotState) :
    (TransitISAACState sm height round bs).1 = sm ∧
    (sm.state.IsLater ⟨height, round, bs⟩ = true →
      (TransitISAACState sm height round bs).2 = [⟨height, round, bs⟩]) ∧
    (sm.state.IsLater ⟨height, round, bs⟩ = false →
      (TransitISAACState sm height round bs).2 = []) := by
  unfold TransitISAACState
  by_cases h : sm.state.IsLater ⟨height, round, bs⟩ = true
  · rw [if_pos h]
    exact ⟨rfl, fun _ => rfl, fun hc => by rw [h] at hc; cases hc⟩
  · rw [if_neg h]
    exact ⟨rfl, fun hc => absurd hc h, fun _ => rfl⟩

/-- Witness for C4 at a concrete manager: from `(5, 2, SIGN)` the target
`(5, 2, ACCEPT)` is strictly later and is sent. -/
theorem TransitISAACState_gate_witness :
    (TransitISAACState ⟨⟨5, 2, BallotState.SIGN⟩, 0⟩ 5 2 BallotState.ACCEPT).1 =
        ⟨⟨5, 2, BallotState.SIGN⟩, 0⟩ ∧
    (ISAACState.IsLater ⟨5, 2, BallotState.SIGN⟩ ⟨5, 2, BallotState.ACCEPT⟩ = true →
      (TransitISAACState ⟨⟨5, 2, BallotState.SIGN⟩, 0⟩ 5 2 BallotState.ACCEPT).2 =
        [⟨5, 2, BallotState.ACCEPT⟩]) ∧
    (ISAACState.IsLater ⟨5, 2, BallotState.SIGN⟩ ⟨5, 2, BallotState.ACCEPT⟩ = false →
      (TransitISAACState ⟨⟨5, 2, BallotState.SIGN⟩, 0⟩ 5 2 BallotState.ACCEPT).2 = []) :=
  TransitISAACState_gate ⟨⟨5, 2, BallotState.SIGN⟩, 0⟩ 5 2 BallotState.ACCEPT

/-- C3: on timer expiry, in ACCEPT the loop recomputes the block-time buffer
and requests `(Height, Round+1, INIT)` without broadcasting; in any other
state it broadcasts exactly one expiration ballot for the current state
voting EXP for the successor ballot state, advances the ballot state in
place, resets the timer for the successor state (TimeoutSIGN after INIT,
TimeoutACCEPT after SIGN; ALLCONFIRM's successor matches no timer case), and
signals the new state. -/
theorem onTimerExpired_spec (conf : Config) (env : Env) (sm : Manager) :
    (sm.state.ballotState = BallotState.ACCEPT →
      (onTimerExpired conf env sm).broadcasts = [] ∧
      (onTimerExpired conf env sm).mgr.state = sm.state ∧
      (onTimerExpired conf env sm).mgr.blockTimeBuffer =
        setBlockTimeBufferValue conf env ∧
      (onTimerExpired conf env sm).enqueued =
        [⟨sm.state.height, sm.state.round + 1, BallotState.INIT⟩] ∧
      (onTimerExpired conf env sm).timerReset = none ∧
      (onTimerExpired conf env sm).signals = []) ∧
    (sm.state.ballotState ≠ BallotState.ACCEPT →
      (onTimerExpired conf env sm).broadcasts =
        [broadcastExpiredBallot env sm.state] ∧
      (broadcastExpiredBallot env sm.state).vote = VotingHole.EXP ∧
      (broadcastExpiredBallot env sm.state).voteState =
        sm.state.ballotState.next ∧
      (onTimerExpired conf env sm).mgr.state =
        { sm.state with ballotState := sm.state.ballotState.next } ∧
      (onTimerExpired conf env sm).mgr.blockTimeBuffer = sm.blockTimeBuffer ∧
      (onTimerExpired conf env sm).timerReset =
        resetTimerDuration conf sm.state.ballotState.next ∧
      (onTimerExpired conf env sm).enqueued = [] ∧
      (onTimerExpired conf env sm).signals =
        [{ sm.state with ballotState := sm.state.ballotState.next }]) ∧
    (sm.state.ballotState = BallotState.INIT →
      (onTimerExpired conf env sm).timerReset = some conf.timeoutSIGN) ∧
    (sm.state.ballotState = BallotState.SIGN →
      (onTimerExpired conf env sm).timerReset = some conf.timeoutACCEPT) := by
  obtain ⟨⟨h, r, bs⟩, btb⟩ := sm
  cases bs
  case INIT =>
    exact ⟨fun hc => BallotState.noConfusion hc,
      fun _ => ⟨rfl, rfl, rfl, rfl, rfl, rfl, rfl, rfl⟩,
      fun _ => rfl,
      fun hc => BallotState.noConfusion hc⟩
  case SIGN =>
    exact ⟨fun hc => BallotState.noConfusion hc,
      fun _ => ⟨rfl, rfl, rfl, rfl, rfl, rfl, rfl, rfl⟩,
      fun hc => BallotState.noConfusion hc,
      fun _ => rfl⟩
  case ACCEPT =>
    refine ⟨fun _ => ?_, fun hn => absurd rfl hn,
      fun hc => BallotState.noConfusion hc,
      fun hc => BallotState.noConfusion hc⟩
    have hstep : IncreaseRound
        ⟨⟨h, r, BallotState.ACCEPT⟩, setBlockTimeBufferValue conf env⟩ =
        (⟨⟨h, r, BallotState.ACCEPT⟩, setBlockTimeBufferValue conf env⟩,
          [⟨h, r + 1, BallotState.INIT⟩]) := by
      unfold IncreaseRound
      exact TransitISAACState_sends_of_isLater _ _ _ _ (isLater_increase_round h r)
    refine ⟨rfl, ?_, ?_, ?_, rfl, rfl⟩
    · show (IncreaseRound
          ⟨⟨h, r, BallotState.ACCEPT⟩, setBlockTimeBufferValue conf env⟩).1.state =
        (⟨⟨h, r, BallotState.ACCEPT⟩, btb⟩ : Manager).state
      rw [hstep]
    · show (IncreaseRound
          ⟨⟨h, r, BallotState.ACCEPT⟩, setBlockTimeBufferValue conf env⟩).1.blockTimeBuffer =
        setBlockTimeBufferValue conf env
      rw [hstep]
    · show (IncreaseRound
          ⟨⟨h, r, BallotState.ACCEPT⟩, setBlockTimeBufferValue conf env⟩).2 =
        [⟨h, r + 1, BallotState.INIT⟩]
      rw [hstep]
  case ALLCONFIRM =>
    exact ⟨fun hc => BallotState.noConfusion hc,
      fun _ => ⟨rfl, rfl, rfl, rfl, rfl, rfl, rfl, rfl⟩,
      fun hc => BallotState.noConfusion hc,
      fun hc => BallotState.noConfusion hc⟩

/-- Witness for C3 at concrete inputs: a manager at `(7, 0, ACCEPT)` with a
trivial environment; the timer expiry requests `(7, 1, INIT)` and broadcasts
nothing. -/
theorem onTimerExpired_spec_witness :
    ((⟨⟨7, 0, BallotState.ACCEPT⟩, 0⟩ : Manager).state.ballotState =
        BallotState.ACCEPT →
      (onTimerExpired ⟨5000000000, 2000000000, 2000000000, 2000000000⟩
          ⟨7, [], 0, 0, 0, 0, 0, 0, fun _ _ => 0⟩
          ⟨⟨7, 0, BallotState.ACCEPT⟩, 0⟩).broadcasts = [] ∧
      (onTimerExpired ⟨5000000000, 2000000000, 2000000000, 2000000000⟩
          ⟨7, [], 0, 0, 0, 0, 0, 0, fun _ _ => 0⟩
          ⟨⟨7, 0, BallotState.ACCEPT⟩, 0⟩).mgr.state = ⟨7, 0, BallotState.ACCEPT⟩ ∧
      (onTimerExpired ⟨5000000000, 2000000000, 2000000000, 2000000000⟩
          ⟨7, [], 0, 0, 0, 0, 0, 0, fun _ _ => 0⟩
          ⟨⟨7, 0, BallotState.ACCEPT⟩, 0⟩).mgr.blockTimeBuffer =
        setBlockTimeBufferValue ⟨5000000000, 2000000000, 2000000000, 2000000000⟩
          ⟨7, [], 0, 0, 0, 0, 0, 0, fun _ _ => 0⟩ ∧
      (onTimerExpired ⟨5000000000, 2000000000, 2000000000, 2000000000⟩
          ⟨7, [], 0, 0, 0, 0, 0, 0, fun _ _ => 0⟩
          ⟨⟨7, 0, BallotState.ACCEPT⟩, 0⟩).enqueued = [⟨7, 1, BallotState.INIT⟩] ∧
      (onTimerExpired ⟨5000000000, 2000000000, 2000000000, 2000000000⟩
          ⟨7, [], 0, 0, 0, 0, 0, 0, fun _ _ => 0⟩
          ⟨⟨7, 0, BallotState.ACCEPT⟩, 0⟩).timerReset = none ∧
      (onTimerExpired ⟨5000000000, 2000000000, 2000000000, 2000000000⟩
          ⟨7, [], 0, 0, 0, 0, 0, 0, fun _ _ => 0⟩
          ⟨⟨7, 0, BallotState.ACCEPT⟩, 0⟩).signals = []) :=
  (onTimerExpired_spec ⟨5000000000, 2000000000, 2000000000, 2000000000⟩
    ⟨7, [], 0, 0, 0, 0, 0, 0, fun _ _ => 0⟩
    ⟨⟨7, 0, BallotState.ACCEPT⟩, 0⟩).1

/-! ## Event-loop interleaving model (C1)

`Start()` runs a single loop multiplexing the timer and the transition
channel, while `TransitISAACState` callers enqueue targets from detached
tasks.  The model keeps the current state and the bag of in-flight targets
(goroutine sends race, so a `deliver i` event may deliver any pending
element).  Adoption follows the `case state := <-sm.stateTransit` dispatch of
the source: every received target is adopted (`setState`) with no further
`IsLater` check; an ALLCONFIRM adoption also runs `NextHeight`, and a timer
expiry in a non-ACCEPT state advances the ballot state in place. -/

structure LoopState where
  cur : ISAACState
  pending : List ISAACState
deriving DecidableEq, Repr

inductive LoopEvent where
  | call (height round : Nat) (bs : BallotState)
  | deliver (i : Nat)
  | timerFire
deriving DecidableEq, Repr

/-- The messages a `TransitISAACState` call emits given the current state:
the gate of the source function (the manager's buffer plays no role). -/
def transitGate (cur target : ISAACState) : List ISAACState :=
  (TransitISAACState ⟨cur, 0⟩ target.height target.round target.ballotState).2

def stepLoop (s : LoopState) (e : LoopEvent) : LoopState :=
  match e with
  | .call height round bs =>
      { s with pending := s.pending ++ transitGate s.cur ⟨height, round, bs⟩ }
  | .deliver i =>
      match s.pending.get? i with
      | none => s
      | some t =>
          let rest := s.pending.eraseIdx i
          match t.ballotState with
          | .ALLCONFIRM =>
              { cur := t, pending := rest ++ transitGate t ⟨t.height + 1, 0, BallotState.INIT⟩ }
          | _ => { cur := t, pending := rest }
  | .timerFire =>
      if s.cur.ballotState = BallotState.ACCEPT then
        { s with pending :=
            s.pending ++ transitGate s.cur ⟨s.cur.height, s.cur.round + 1, BallotState.INIT⟩ }
      else
        { s with cur := { s.cur with ballotState := s.cur.ballotState.next } }

/-- The successive values `State()` returns along a run. -/
def observedStates : LoopState → List LoopEvent → List ISAACState
  | s, [] => [s.cur]
  | s, e :: es => s.cur :: observedStates (stepLoop s e) es

/-- The published-state monotonicity property claimed by the spec:
every consecutive pair satisfies `IsLater(prev, curr) || prev == curr`. -/
def monotoneTrace : List ISAACState → Bool
  | a :: b :: rest => (a.IsLater b || a == b) && monotoneTrace (b :: rest)
  | _ => true

/-- C1: the loop adopts received targets without re-checking `IsLater`, so
monotonicity fails.  From `(5,2,SIGN)`, the calls `TransitISAACState(5,2,ACCEPT)`
and `TransitISAACState(5,3,INIT)` both pass the gate (both targets are
strictly later at enqueue time); delivering `(5,3,INIT)` first and then the
stale `(5,2,ACCEPT)` makes the observed sequence regress from `(5,3,INIT)`
to `(5,2,ACCEPT)`. -/
theorem c1_monotonicity_violation :
    observedStates ⟨⟨5, 2, BallotState.SIGN⟩, []⟩
        [.call 5 2 BallotState.ACCEPT, .call 5 3 BallotState.INIT,
         .deliver 1, .deliver 0] =
      [⟨5, 2, BallotState.SIGN⟩, ⟨5, 2, BallotState.SIGN⟩,
       ⟨5, 2, BallotState.SIGN⟩, ⟨5, 3, BallotState.INIT⟩,
       ⟨5, 2, BallotState.ACCEPT⟩] ∧
    monotoneTrace (observedStates ⟨⟨5, 2, BallotState.SIGN⟩, []⟩
        [.call 5 2 BallotState.ACCEPT, .call 5 3 BallotState.INIT,
         .deliver 1, .deliver 0]) = false := by
  exact ⟨by decide, by decide⟩

/-! ## Block-operation store (package block)

Keys and serialized values of the ordered key-value backend are byte
strings, embedded as `List Nat`.  The backend itself (lib/storage
`LevelDBBackend`) is not among the given sources; it is modelled from the
spec's §4.1 contract: `Has` is a key-presence check, `New` fails when the
key is present and otherwise appends the pair, and iteration yields the
entries under a prefix in ascending byte-wise key order. -/

structure BlockOperation where
  hash : List Nat
  opHash : List Nat
  txHash : List Nat
  opType : List Nat
  source : List Nat
  body : List Nat
  height : Nat
  sequenceID : Nat
  isSaved : Bool
deriving DecidableEq, Repr

inductive StoreVal where
  | opRecord (bo : BlockOperation)
  | hashRef (h : List Nat)
deriving DecidableEq, Repr

abbrev Store := List (List Nat × StoreVal)

/-- Modelled from the spec: the backend's key-presence check `Has`. -/
def hasKey (st : Store) (k : List Nat) : Bool :=
  st.any fun e => e.1 == k

/-- Modelled from the spec: the backend's `New` — fails (`none`) when the
key is present, otherwise inserts the encoded value. -/
def stNew (st : Store) (k : List Nat) (v : StoreVal) : Option Store :=
  if hasKey st k then none else some (st ++ [(k, v)])

/-- Modelled from the spec: `common.BlockOperationPrefixHash = "bo-h-"`. -/
def BlockOperationPrefixHash : List Nat := [98, 111, 45, 104, 45]

/-- Modelled from the spec: `common.BlockOperationPrefixTxHash = "bo-tx-"`. -/
def BlockOperationPrefixTxHash : List Nat := [98, 111, 45, 116, 120, 45]

/-- Modelled from the spec: `common.BlockOperationPrefixSource = "bo-src-"`. -/
def BlockOperationPrefixSource : List Nat := [98, 111, 45, 115, 114, 99, 45]

def GetBlockOperationKey (hash : List Nat) : List Nat :=
  BlockOperationPrefixHash ++ hash

def GetBlockOperationKeyPrefixTxHash (txHash : List Nat) : List Nat :=
  BlockOperationPrefixTxHash ++ txHash ++ [45]

def GetBlockOperationKeyPrefixSource (source : List Nat) : List Nat :=
  BlockOperationPrefixSource ++ source ++ [45]

/-- Big-endian digits: `beBytes w n` is the `w`-byte big-endian encoding of
`n mod 256^w`. -/
def beBytes : Nat → Nat → List Nat
  | 0, _ => []
  | w + 1, n => n / 256 ^ w % 256 :: beBytes w n

/-- Modelled from the spec: `common.EncodeUint64ToByteSlice`, the
fixed-width 8-byte big-endian encoding of a uint64 (lib/common is not among
the given sources). -/
def EncodeUint64ToByteSlice (n : Nat) : List Nat :=
  beBytes 8 n

/-- `bo.NewBlockOperationTxHashKey()`; the `GetUniqueIDFromUUID()` suffix is
passed in as `uid`. -/
def NewBlockOperationTxHashKey (bo : BlockOperation) (uid : List Nat) : List Nat :=
  GetBlockOperationKeyPrefixTxHash bo.txHash ++
    EncodeUint64ToByteSlice bo.height ++
    EncodeUint64ToByteSlice bo.sequenceID ++ uid

/-- `bo.NewBlockOperationSourceKey()`; the `GetUniqueIDFromUUID()` suffix is
passed in as `uid`. -/
def NewBlockOperationSourceKey (bo : BlockOperation) (uid : List Nat) : List Nat :=
  GetBlockOperationKeyPrefixSource bo.source ++
    EncodeUint64ToByteSlice bo.height ++
    EncodeUint64ToByteSlice bo.sequenceID ++ uid

inductive SaveErr where
  | AlreadySaved
  | BlockAlreadyExists
  | AlreadyExists
deriving DecidableEq, Repr

structure SaveResult where
  err : Option SaveErr
  store : Store
  bo : BlockOperation
deriving DecidableEq, Repr

/-- `(bo *BlockOperation) Save(st)`: refuse a second save of the same
record, refuse when the primary key is present, then write the primary
record, the tx-hash index entry and the source index entry in that order,
returning the backend's error as soon as one write fails; on full success
mark the record saved. -/
def Save (st : Store) (bo : BlockOperation) (uidTx uidSrc : List Nat) : SaveResult :=
  if bo.isSaved then
    ⟨some SaveErr.AlreadySaved, st, bo⟩
  else if hasKey st (GetBlockOperationKey bo.hash) then
    ⟨some SaveErr.BlockAlreadyExists, st, bo⟩
  else
    match stNew st (GetBlockOperationKey bo.hash) (StoreVal.opRecord bo) with
    | none => ⟨some SaveErr.AlreadyExists, st, bo⟩
    | some st1 =>
      match stNew st1 (NewBlockOperationTxHashKey bo uidTx) (StoreVal.hashRef bo.hash) with
      | none => ⟨some SaveErr.AlreadyExists, st1, bo⟩
      | some st2 =>
        match stNew st2 (NewBlockOperationSourceKey bo uidSrc) (StoreVal.hashRef bo.hash) with
        | none => ⟨some SaveErr.AlreadyExists, st2, bo⟩
        | some st3 => ⟨none, st3, { bo with isSaved := true }⟩

/-- `ExistsBlockOperation(st, hash)`. -/
def ExistsBlockOperation (st : Store) (hash : List Nat) : Bool :=
  hasKey st (GetBlockOperationKey hash)

theorem hasKey_append (st1 st2 : Store) (k : List Nat) :
    hasKey (st1 ++ st2) k = (hasKey st1 k || hasKey st2 k) := by
  unfold hasKey
  exact List.any_append

theorem hasKey_singleton (k1 k : List Nat) (v : StoreVal) :
    hasKey [(k1, v)] k = (k1 == k) := by
  simp [hasKey]

theorem stNew_of_absent {st : Store} {k : List Nat} (v : StoreVal)
    (h : hasKey st k = false) : stNew st k v = some (st ++ [(k, v)]) := by
  unfold stNew
  rw [if_neg (by rw [h]; exact Bool.false_ne_true)]

theorem stNew_of_present {st : Store} {k : List Nat} (v : StoreVal)
    (h : hasKey st k = true) : stNew st k v = none := by
  unfold stNew
  rw [if_pos h]

/-- C5: `Save` fails with `AlreadySaved` when the record's saved flag is
set, and (for an unsaved record) with `BlockAlreadyExists` when the primary
key `bo-h-{Hash}` is present; in both cases it returns before any write, so
the store (and the record) are unchanged. -/
theorem Save_fails_without_write (st : Store) (bo : BlockOperation)
    (uidTx uidSrc : List Nat) :
    (bo.isSaved = true →
      Save st bo uidTx uidSrc = ⟨some SaveErr.AlreadySaved, st, bo⟩) ∧
    (bo.isSaved = false →
      hasKey st (GetBlockOperationKey bo.hash) = true →
      Save st bo uidTx uidSrc = ⟨some SaveErr.BlockAlreadyExists, st, bo⟩) := by
  constructor
  · intro h
    unfold Save
    rw [if_pos h]
  · intro h1 h2
    unfold Save
    rw [if_neg (by rw [h1]; exact Bool.false_ne_true), if_pos h2]

/-- Witness for C5: a record with the saved flag set is refused with
`AlreadySaved` on the empty store; an unsaved record whose primary key is
already present is refused with `BlockAlreadyExists`; neither changes the
store. -/
theorem Save_fails_without_write_witness :
    Save [] ⟨[1], [1], [2], [], [3], [], 1, 1, true⟩ [] [] =
      ⟨some SaveErr.AlreadySaved, [], ⟨[1], [1], [2], [], [3], [], 1, 1, true⟩⟩ ∧
    Save [(GetBlockOperationKey [1], StoreVal.hashRef [9])]
        ⟨[1], [1], [2], [], [3], [], 1, 1, false⟩ [] [] =
      ⟨some SaveErr.BlockAlreadyExists,
        [(GetBlockOperationKey [1], StoreVal.hashRef [9])],
        ⟨[1], [1], [2], [], [3], [], 1, 1, false⟩⟩ :=
  ⟨(Save_fails_without_write [] ⟨[1], [1], [2], [], [3], [], 1, 1, true⟩ [] []).1 rfl,
   (Save_fails_without_write [(GetBlockOperationKey [1], StoreVal.hashRef [9])]
      ⟨[1], [1], [2], [], [3], [], 1, 1, false⟩ [] []).2 rfl (by decide)⟩

theorem primary_ne_txKey (h1 : List Nat) (bo : BlockOperation) (uid : List Nat) :
    (GetBlockOperationKey h1 == NewBlockOperationTxHashKey bo uid) = false := by
  simp [GetBlockOperationKey, BlockOperationPrefixHash,
    NewBlockOperationTxHashKey, GetBlockOperationKeyPrefixTxHash,
    BlockOperationPrefixTxHash]

theorem primary_ne_srcKey (h1 : List Nat) (bo : BlockOperation) (uid : List Nat) :
    (GetBlockOperationKey h1 == NewBlockOperationSourceKey bo uid) = false := by
  simp [GetBlockOperationKey, BlockOperationPrefixHash,
    NewBlockOperationSourceKey, GetBlockOperationKeyPrefixSource,
    BlockOperationPrefixSource]

theorem txKey_ne_srcKey (bo1 bo2 : BlockOperation) (uid1 uid2 : List Nat) :
    (NewBlockOperationTxHashKey bo1 uid1 == NewBlockOperationSourceKey bo2 uid2) = false := by
  simp [NewBlockOperationTxHashKey, GetBlockOperationKeyPrefixTxHash,
    BlockOperationPrefixTxHash, NewBlockOperationSourceKey,
    GetBlockOperationKeyPrefixSource, BlockOperationPrefixSource]

/-- C10: when a secondary-index write fails after the primary record was
written, `Save` returns the backend error with the primary persisted, the
failed secondary (and any unwritten one) missing, and the saved flag still
false; a retry on the same record then fails with `BlockAlreadyExists`, so
the triple write is not atomic.  The first conjunct covers a failing
tx-index write, the second a failing source-index write. -/
theorem Save_partial_failure (st : Store) (bo : BlockOperation)
    (uidTx uidSrc : List Nat)
    (h0 : bo.isSaved = false)
    (h1 : hasKey st (GetBlockOperationKey bo.hash) = false) :
    (hasKey st (NewBlockOperationTxHashKey bo uidTx) = true →
      Save st bo uidTx uidSrc =
        ⟨some SaveErr.AlreadyExists,
          st ++ [(GetBlockOperationKey bo.hash, StoreVal.opRecord bo)], bo⟩ ∧
      ExistsBlockOperation (Save st bo uidTx uidSrc).store bo.hash = true ∧
      (Save st bo uidTx uidSrc).bo.isSaved = false ∧
      (∀ uidTx2 uidSrc2, Save (Save st bo uidTx uidSrc).store bo uidTx2 uidSrc2 =
        ⟨some SaveErr.BlockAlreadyExists, (Save st bo uidTx uidSrc).store, bo⟩)) ∧
    (hasKey st (NewBlockOperationTxHashKey bo uidTx) = false →
      hasKey st (NewBlockOperationSourceKey bo uidSrc) = true →
      Save st bo uidTx uidSrc =
        ⟨some SaveErr.AlreadyExists,
          st ++ [(GetBlockOperationKey bo.hash, StoreVal.opRecord bo),
                 (NewBlockOperationTxHashKey bo uidTx, StoreVal.hashRef bo.hash)], bo⟩ ∧
      ExistsBlockOperation (Save st bo uidTx uidSrc).store bo.hash = true ∧
      (Save st bo uidTx uidSrc).bo.isSaved = false ∧
      (∀ uidTx2 uidSrc2, Save (Save st bo uidTx uidSrc).store bo uidTx2 uidSrc2 =
        ⟨some SaveErr.BlockAlreadyExists, (Save st bo uidTx uidSrc).store, bo⟩)) := by
  have e1 : stNew st (GetBlockOperationKey bo.hash) (StoreVal.opRecord bo) =
      some (st ++ [(GetBlockOperationKey bo.hash, StoreVal.opRecord bo)]) :=
    stNew_of_absent _ h1
  have hkx : hasKey (st ++ [(GetBlockOperationKey bo.hash, StoreVal.opRecord bo)])
      (GetBlockOperationKey bo.hash) = true := by
    simp [hasKey_append, hasKey_singleton, h1]
  constructor
  · intro hT
    have e2 : stNew (st ++ [(GetBlockOperationKey bo.hash, StoreVal.opRecord bo)])
        (NewBlockOperationTxHashKey bo uidTx) (StoreVal.hashRef bo.hash) = none := by
      apply stNew_of_present
      rw [hasKey_append, hT]
      rfl
    have hsave : Save st bo uidTx uidSrc =
        ⟨some SaveErr.AlreadyExists,
          st ++ [(GetBlockOperationKey bo.hash, StoreVal.opRecord bo)], bo⟩ := by
      simp [Save, h0, h1, e1, e2]
    refine ⟨hsave, ?_, ?_, ?_⟩
    · simp only [hsave]
      exact hkx
    · simp only [hsave]
      exact h0
    · intro uidTx2 uidSrc2
      simp only [hsave]
      unfold Save
      rw [if_neg (by rw [h0]; exact Bool.false_ne_true), if_pos hkx]
  · intro hT hS
    have e2 : stNew (st ++ [(GetBlockOperationKey bo.hash, StoreVal.opRecord bo)])
        (NewBlockOperationTxHashKey bo uidTx) (StoreVal.hashRef bo.hash) =
        some (st ++ [(GetBlockOperationKey bo.hash, StoreVal.opRecord bo),
          (NewBlockOperationTxHashKey bo uidTx, StoreVal.hashRef bo.hash)]) := by
      rw [stNew_of_absent _ (by rw [hasKey_append, hT, hasKey_singleton, primary_ne_txKey]; rfl)]
      rw [List.append_assoc]
      rfl
    have e3 : stNew (st ++ [(GetBlockOperationKey bo.hash, StoreVal.opRecord bo),
          (NewBlockOperationTxHashKey bo uidTx, StoreVal.hashRef bo.hash)])
        (NewBlockOperationSourceKey bo uidSrc) (StoreVal.hashRef bo.hash) = none := by
      apply stNew_of_present
      rw [hasKey_append, hS]
      rfl
    have hsave : Save st bo uidTx uidSrc =
        ⟨some SaveErr.AlreadyExists,
          st ++ [(GetBlockOperationKey bo.hash, StoreVal.opRecord bo),
                 (NewBlockOperationTxHashKey bo uidTx, StoreVal.hashRef bo.hash)], bo⟩ := by
      simp [Save, h0, h1, e1, e2, e3]
    have hkx2 : hasKey (st ++ [(GetBlockOperationKey bo.hash, StoreVal.opRecord bo),
          (NewBlockOperationTxHashKey bo uidTx, StoreVal.hashRef bo.hash)])
        (GetBlockOperationKey bo.hash) = true := by
      rw [hasKey_append, h1]
      simp [hasKey]
    refine ⟨hsave, ?_, ?_, ?_⟩
    · simp only [hsave]
      exact hkx2
    · simp only [hsave]
      exact h0
    · intro uidTx2 uidSrc2
      simp only [hsave]
      unfold Save
      rw [if_neg (by rw [h0]; exact Bool.false_ne_true), if_pos hkx2]

/-- A concrete record for the C10 witness. -/
def c10bo : BlockOperation := ⟨[1], [1], [2], [], [3], [], 1, 1, false⟩

/-- A concrete store for the C10 witness, already holding the tx-index key
that the save will collide with. -/
def c10store : Store := [(NewBlockOperationTxHashKey c10bo [7], StoreVal.hashRef [9])]

/-- Witness for C10: the save writes the primary, fails on the tx-index
entry, leaves the saved flag false, and the retry fails with
`BlockAlreadyExists`. -/
theorem Save_partial_failure_witness :
    (c10bo.isSaved = false ∧
     hasKey c10store (GetBlockOperationKey c10bo.hash) = false ∧
     hasKey c10store (NewBlockOperationTxHashKey c10bo [7]) = true) ∧
    (Save c10store c10bo [7] [8] =
      ⟨some SaveErr.AlreadyExists,
        c10store ++ [(GetBlockOperationKey c10bo.hash, StoreVal.opRecord c10bo)], c10bo⟩ ∧
     ExistsBlockOperation (Save c10store c10bo [7] [8]).store c10bo.hash = true ∧
     (Save c10store c10bo [7] [8]).bo.isSaved = false ∧
     (∀ uidTx2 uidSrc2, Save (Save c10store c10bo [7] [8]).store c10bo uidTx2 uidSrc2 =
        ⟨some SaveErr.BlockAlreadyExists, (Save c10store c10bo [7] [8]).store, c10bo⟩)) :=
  ⟨⟨rfl, by decide, by decide⟩,
   (Save_partial_failure c10store c10bo [7] [8] rfl (by decide)).1 (by decide)⟩

/-! ## Byte-wise lexicographic order on keys (C7)

The ordered KV backend iterates keys in ascending byte-wise lexicographic
order (spec §4.1); `lexLt`/`lexLe` embed that comparison. -/

def lexLt : List Nat → List Nat → Bool
  | [], [] => false
  | [], _ :: _ => true
  | _ :: _, [] => false
  | a :: as, b :: bs => decide (a < b) || (a == b && lexLt as bs)

def lexLe (a b : List Nat) : Bool :=
  lexLt a b || a == b

theorem lexLt_irrefl (a : List Nat) : lexLt a a = false := by
  induction a with
  | nil => rfl
  | cons x xs ih => simp [lexLt, ih]

theorem lexLt_asymm (a b : List Nat) (h : lexLt a b = true) :
    lexLt b a = false := by
  induction a generalizing b with
  | nil =>
    cases b with
    | nil => exact absurd h (by simp [lexLt])
    | cons y ys => rfl
  | cons x xs ih =>
    cases b with
    | nil => exact absurd h (by simp [lexLt])
    | cons y ys =>
      simp only [lexLt, Bool.or_eq_true, Bool.and_eq_true, decide_eq_true_eq,
        beq_iff_eq] at h ⊢
      rcases h with h | ⟨rfl, h2⟩
      · simp only [Bool.or_eq_false_iff, Bool.and_eq_false_iff]
        constructor
        · simp only [decide_eq_false_iff_not]
          omega
        · left
          simp only [beq_eq_false_iff_ne, ne_eq]
          omega
      · simp only [Bool.or_eq_false_iff, Bool.and_eq_false_iff]
        constructor
        · simp
        · right
          exact ih ys h2

theorem lexLt_trans (a b c : List Nat) (h1 : lexLt a b = true)
    (h2 : lexLt b c = true) : lexLt a c = true := by
  induction a generalizing b c with
  | nil =>
    cases c with
    | nil =>
      cases b with
      | nil => exact absurd h1 (by simp [lexLt])
      | cons y ys => exact absurd h2 (by simp [lexLt])
    | cons z zs => rfl
  | cons x xs ih =>
    cases b with
    | nil => exact absurd h1 (by simp [lexLt])
    | cons y ys =>
      cases c with
      | nil => exact absurd h2 (by simp [lexLt])
      | cons z zs =>
        simp only [lexLt, Bool.or_eq_true, Bool.and_eq_true, decide_eq_true_eq,
          beq_iff_eq] at h1 h2 ⊢
        rcases h1 with h1 | ⟨rfl, h1t⟩
        · rcases h2 with h2 | ⟨rfl, h2t⟩
          · left; omega
          · left; exact h1
        · rcases h2 with h2 | ⟨rfl, h2t⟩
          · left; exact h2
          · right; exact ⟨rfl, ih ys zs h1t h2t⟩

theorem lexLe_total (a b : List Nat) : lexLe a b = true ∨ lexLe b a = true := by
  induction a generalizing b with
  | nil =>
    cases b with
    | nil => left; simp [lexLe]
    | cons y ys => left; simp [lexLe, lexLt]
  | cons x xs ih =>
    cases b with
    | nil => right; simp [lexLe, lexLt]
    | cons y ys =>
      rcases Nat.lt_trichotomy x y with h | h | h
      · left; simp [lexLe, lexLt, h]
      · subst h
        rcases ih ys with h2 | h2
        · left
          simp only [lexLe, Bool.or_eq_true, beq_iff_eq] at h2 ⊢
          rcases h2 with h2 | h2
          · left; simp [lexLt, h2]
          · right; simp [h2]
        · right
          simp only [lexLe, Bool.or_eq_true, beq_iff_eq] at h2 ⊢
          rcases h2 with h2 | h2
          · left; simp [lexLt, h2]
          · right; simp [h2]
      · right; simp [lexLe, lexLt, h]

theorem lexLe_trans (a b c : List Nat) (h1 : lexLe a b = true)
    (h2 : lexLe b c = true) : lexLe a c = true := by
  simp only [lexLe, Bool.or_eq_true, beq_iff_eq] at h1 h2 ⊢
  rcases h1 with h1 | rfl
  · rcases h2 with h2 | rfl
    · left; exact lexLt_trans a b c h1 h2
    · left; exact h1
  · exact h2

theorem lexLt_append_left (p a b : List Nat) :
    lexLt (p ++ a) (p ++ b) = lexLt a b := by
  induction p with
  | nil => rfl
  | cons x xs ih => simp [lexLt, ih]

theorem lexLt_append_of_length_eq (a b x y : List Nat)
    (hlen : a.length = b.length) (h : lexLt a b = true) :
    lexLt (a ++ x) (b ++ y) = true := by
  induction a generalizing b with
  | nil =>
    cases b with
    | nil => exact absurd h (by simp [lexLt])
    | cons z zs => simp at hlen
  | cons u us ih =>
    cases b with
    | nil => simp at hlen
    | cons v vs =>
      simp only [lexLt, Bool.or_eq_true, Bool.and_eq_true, decide_eq_true_eq,
        beq_iff_eq] at h ⊢
      rcases h with h | ⟨rfl, ht⟩
      · left; exact h
      · right
        exact ⟨rfl, ih vs (by simpa using hlen) ht⟩

theorem beBytes_length (w n : Nat) : (beBytes w n).length = w := by
  induction w generalizing n with
  | zero => rfl
  | succ w ih => simp [beBytes, ih]

theorem beBytes_mod (w n : Nat) : beBytes w n = beBytes w (n % 256 ^ w) := by
  induction w generalizing n with
  | zero => rfl
  | succ w ih =>
    simp only [beBytes, List.cons.injEq]
    constructor
    · have h1 : n % 256 ^ (w + 1) / 256 ^ w = n / 256 ^ w % 256 := by
        rw [pow_succ]
        exact Nat.mod_mul_right_div_self n (256 ^ w) 256
      rw [h1]
      omega
    · rw [ih, ih (n % 256 ^ (w + 1))]
      congr 1
      rw [Nat.mod_mod_of_dvd]
      exact ⟨256, by rw [pow_succ]⟩

theorem lexLt_beBytes (w : Nat) : ∀ m n : Nat, m < n → n < 256 ^ w →
    lexLt (beBytes w m) (beBytes w n) = true := by
  induction w with
  | zero =>
    intro m n hmn hn
    omega
  | succ w ih =>
    intro m n hmn hn
    have hm : m < 256 ^ (w + 1) := lt_trans hmn hn
    have hdm : m / 256 ^ w < 256 := by
      rw [Nat.div_lt_iff_lt_mul (Nat.pos_pow_of_pos w (by norm_num))]
      calc m < 256 ^ (w + 1) := hm
        _ = 256 * 256 ^ w := by ring
    have hdn : n / 256 ^ w < 256 := by
      rw [Nat.div_lt_iff_lt_mul (Nat.pos_pow_of_pos w (by norm_num))]
      calc n < 256 ^ (w + 1) := hn
        _ = 256 * 256 ^ w := by ring
    have hdle : m / 256 ^ w ≤ n / 256 ^ w := Nat.div_le_div_right (le_of_lt hmn)
    simp only [beBytes, lexLt, Bool.or_eq_true, Bool.and_eq_true,
      decide_eq_true_eq, beq_iff_eq]
    rcases Nat.lt_or_ge (m / 256 ^ w) (n / 256 ^ w) with hlt | hge
    · left
      rw [Nat.mod_eq_of_lt hdm, Nat.mod_eq_of_lt hdn]
      exact hlt
    · have heq : m / 256 ^ w = n / 256 ^ w := le_antisymm hdle hge
      right
      refine ⟨by rw [heq], ?_⟩
      have e1 := Nat.div_add_mod m (256 ^ w)
      have e2 := Nat.div_add_mod n (256 ^ w)
      rw [heq] at e1
      have hr : m % 256 ^ w < n % 256 ^ w := by omega
      rw [beBytes_mod w m, beBytes_mod w n]
      exact ih (m % 256 ^ w) (n % 256 ^ w) hr (Nat.mod_lt _ (Nat.pos_pow_of_pos w (by norm_num)))

theorem EncodeUint64ToByteSlice_length (n : Nat) :
    (EncodeUint64ToByteSlice n).length = 8 :=
  beBytes_length 8 n

theorem EncodeUint64ToByteSlice_mono (m n : Nat) (hmn : m < n)
    (hn : n < 2 ^ 64) :
    lexLt (EncodeUint64ToByteSlice m) (EncodeUint64ToByteSlice n) = true := by
  unfold EncodeUint64ToByteSlice
  exact lexLt_beBytes 8 m n hmn (by norm_num at hn ⊢; omega)

/-- Strict monotonicity of the secondary-key encoding
`P || BE(Height) || BE(SequenceID) || UniqueID` in `(Height, SequenceID)`
under byte-wise lexicographic order, for any shared prefix and any
unique-suffix pair. -/
theorem lexLt_secondary_key (P : List Nat) (h1 s1 h2 s2 : Nat)
    (u1 u2 : List Nat) (hh2 : h2 < 2 ^ 64) (hs2 : s2 < 2 ^ 64)
    (hlt : h1 < h2 ∨ (h1 = h2 ∧ s1 < s2)) :
    lexLt (P ++ EncodeUint64ToByteSlice h1 ++ EncodeUint64ToByteSlice s1 ++ u1)
      (P ++ EncodeUint64ToByteSlice h2 ++ EncodeUint64ToByteSlice s2 ++ u2) =
      true := by
  simp only [List.append_assoc]
  rw [lexLt_append_left]
  rcases hlt with hlt | ⟨heq, hlt⟩
  · exact lexLt_append_of_length_eq _ _ _ _
      (by rw [EncodeUint64ToByteSlice_length, EncodeUint64ToByteSlice_length])
      (EncodeUint64ToByteSlice_mono h1 h2 hlt hh2)
  · subst heq
    rw [lexLt_append_left]
    exact lexLt_append_of_length_eq _ _ _ _
      (by rw [EncodeUint64ToByteSlice_length, EncodeUint64ToByteSlice_length])
      (EncodeUint64ToByteSlice_mono s1 s2 hlt hs2)

/-- Modelled from the spec: `GetIterator(prefix, options)` yields the
entries whose key starts with the given byte prefix, in ascending byte-wise
key order (lib/storage is not among the given sources; default options). -/
def iterEntries (st : Store) (p : List Nat) : List (List Nat × StoreVal) :=
  List.insertionSort (fun a b => lexLe a.1 b.1 = true)
    (st.filter fun e => p.isPrefixOf e.1)

instance : IsTotal (List Nat × StoreVal) (fun a b => lexLe a.1 b.1 = true) :=
  ⟨fun a b => lexLe_total a.1 b.1⟩

instance : IsTrans (List Nat × StoreVal) (fun a b => lexLe a.1 b.1 = true) :=
  ⟨fun a b c => lexLe_trans a.1 b.1 c.1⟩

theorem iterEntries_sorted (st : Store) (p : List Nat) :
    List.Sorted (fun a b => lexLe a.1 b.1 = true) (iterEntries st p) :=
  List.sorted_insertionSort _ _

theorem mem_iterEntries (st : Store) (p : List Nat) (e : List Nat × StoreVal) :
    e ∈ iterEntries st p ↔ (e ∈ st ∧ p.isPrefixOf e.1 = true) := by
  unfold iterEntries
  rw [(List.perm_insertionSort _ _).mem_iff, List.mem_filter]

theorem lt_index_of_lexLt {l : List (List Nat × StoreVal)}
    (hs : List.Sorted (fun a b => lexLe a.1 b.1 = true) l)
    {i j : Nat} {ei ej : List Nat × StoreVal}
    (hi : l.get? i = some ei) (hj : l.get? j = some ej)
    (hlt : lexLt ei.1 ej.1 = true) : i < j := by
  by_contra hc
  push_neg at hc
  rcases Nat.eq_or_lt_of_le hc with heq | hji
  · subst heq
    rw [hi] at hj
    cases hj
    exact absurd hlt (by rw [lexLt_irrefl]; exact Bool.false_ne_true)
  · obtain ⟨hjlen, hjget⟩ := List.get?_eq_some.mp hj
    obtain ⟨hilen, higet⟩ := List.get?_eq_some.mp hi
    have hrel := List.Sorted.rel_get_of_lt hs
      (a := ⟨j, hjlen⟩) (b := ⟨i, hilen⟩) hji
    rw [hjget, higet] at hrel
    simp only [lexLe, Bool.or_eq_true, beq_iff_eq] at hrel
    rcases hrel with hrel | hrel
    · rw [lexLt_asymm _ _ hlt] at hrel
      exact Bool.false_ne_true hrel
    · rw [hrel] at hlt
      rw [lexLt_irrefl] at hlt
      exact Bool.false_ne_true hlt

/-- `GetBlockOperation(st, hash)`: read the primary record and mark it
saved; fails when the key is absent or does not hold a record. -/
def GetBlockOperation (st : Store) (hash : List Nat) : Option BlockOperation :=
  match st.find? fun e => e.1 == GetBlockOperationKey hash with
  | some (_, StoreVal.opRecord bo) => some { bo with isSaved := true }
  | _ => none

/-- `LoadBlockOperationsInsideIterator`: for each secondary entry decode the
referenced hash (a non-string value decodes to the zero value) and read the
primary record, ending the stream on a failed read. -/
def LoadBlockOperationsInsideIterator (st : Store) :
    List (List Nat × StoreVal) → List BlockOperation
  | [] => []
  | e :: rest =>
      match GetBlockOperation st
          (match e.2 with
           | StoreVal.hashRef h => h
           | StoreVal.opRecord _ => []) with
      | some bo => bo :: LoadBlockOperationsInsideIterator st rest
      | none => []

/-- `GetBlockOperationsByTxHash(st, txHash, options)` with default options:
iterate the tx-hash prefix and load each referenced record. -/
def GetBlockOperationsByTxHash (st : Store) (txHash : List Nat) :
    List BlockOperation :=
  LoadBlockOperationsInsideIterator st
    (iterEntries st (GetBlockOperationKeyPrefixTxHash txHash))

/-- `GetBlockOperationsBySource(st, source, options)` with default options. -/
def GetBlockOperationsBySource (st : Store) (source : List Nat) :
    List BlockOperation :=
  LoadBlockOperationsInsideIterator st
    (iterEntries st (GetBlockOperationKeyPrefixSource source))

theorem txPfx_isPrefixOf_txKey (bo : BlockOperation) (uid : List Nat) :
    (GetBlockOperationKeyPrefixTxHash bo.txHash).isPrefixOf
      (NewBlockOperationTxHashKey bo uid) = true := by
  unfold NewBlockOperationTxHashKey
  simp only [List.append_assoc, List.isPrefixOf_iff_prefix]
  exact List.prefix_append _ _

theorem srcPfx_isPrefixOf_srcKey (bo : BlockOperation) (uid : List Nat) :
    (GetBlockOperationKeyPrefixSource bo.source).isPrefixOf
      (NewBlockOperationSourceKey bo uid) = true := by
  unfold NewBlockOperationSourceKey
  simp only [List.append_assoc, List.isPrefixOf_iff_prefix]
  exact List.prefix_append _ _

/-- C7: for two operations under the same TxHash (resp. Source) with
`(Height, SequenceID)` strictly smaller in lexicographic order, the
secondary-key encoding `prefix || BE(Height) || BE(SeqID) || UniqueID` is
strictly smaller byte-wise, and the prefix iterator behind
`GetBlockOperationsByTxHash` (resp. `GetBlockOperationsBySource`) yields
`a`'s secondary entry strictly before `b`'s. -/
theorem secondary_index_iteration_order
    (st : Store) (a b : BlockOperation) (uidA uidB : List Nat)
    (hhb : b.height < 2 ^ 64) (hsb : b.sequenceID < 2 ^ 64)
    (hlt : a.height < b.height ∨
      (a.height = b.height ∧ a.sequenceID < b.sequenceID)) :
    (a.txHash = b.txHash →
      (NewBlockOperationTxHashKey a uidA, StoreVal.hashRef a.hash) ∈ st →
      (NewBlockOperationTxHashKey b uidB, StoreVal.hashRef b.hash) ∈ st →
      lexLt (NewBlockOperationTxHashKey a uidA)
        (NewBlockOperationTxHashKey b uidB) = true ∧
      (∃ i, (iterEntries st (GetBlockOperationKeyPrefixTxHash a.txHash)).get? i =
        some (NewBlockOperationTxHashKey a uidA, StoreVal.hashRef a.hash)) ∧
      (∃ j, (iterEntries st (GetBlockOperationKeyPrefixTxHash a.txHash)).get? j =
        some (NewBlockOperationTxHashKey b uidB, StoreVal.hashRef b.hash)) ∧
      (∀ i j vA vB,
        (iterEntries st (GetBlockOperationKeyPrefixTxHash a.txHash)).get? i =
          some (NewBlockOperationTxHashKey a uidA, vA) →
        (iterEntries st (GetBlockOperationKeyPrefixTxHash a.txHash)).get? j =
          some (NewBlockOperationTxHashKey b uidB, vB) → i < j)) ∧
    (a.source = b.source →
      (NewBlockOperationSourceKey a uidA, StoreVal.hashRef a.hash) ∈ st →
      (NewBlockOperationSourceKey b uidB, StoreVal.hashRef b.hash) ∈ st →
      lexLt (NewBlockOperationSourceKey a uidA)
        (NewBlockOperationSourceKey b uidB) = true ∧
      (∃ i, (iterEntries st (GetBlockOperationKeyPrefixSource a.source)).get? i =
        some (NewBlockOperationSourceKey a uidA, StoreVal.hashRef a.hash)) ∧
      (∃ j, (iterEntries st (GetBlockOperationKeyPrefixSource a.source)).get? j =
        some (NewBlockOperationSourceKey b uidB, StoreVal.hashRef b.hash)) ∧
      (∀ i j vA vB,
        (iterEntries st (GetBlockOperationKeyPrefixSource a.source)).get? i =
          some (NewBlockOperationSourceKey a uidA, vA) →
        (iterEntries st (GetBlockOperationKeyPrefixSource a.source)).get? j =
          some (NewBlockOperationSourceKey b uidB, vB) → i < j)) := by
  constructor
  · intro htx hma hmb
    have hkeylt : lexLt (NewBlockOperationTxHashKey a uidA)
        (NewBlockOperationTxHashKey b uidB) = true := by
      unfold NewBlockOperationTxHashKey
      rw [← htx]
      exact lexLt_secondary_key _ _ _ _ _ _ _ hhb hsb hlt
    have hmema : (NewBlockOperationTxHashKey a uidA, StoreVal.hashRef a.hash) ∈
        iterEntries st (GetBlockOperationKeyPrefixTxHash a.txHash) :=
      (mem_iterEntries _ _ _).mpr ⟨hma, txPfx_isPrefixOf_txKey a uidA⟩
    have hmemb : (NewBlockOperationTxHashKey b uidB, StoreVal.hashRef b.hash) ∈
        iterEntries st (GetBlockOperationKeyPrefixTxHash a.txHash) :=
      (mem_iterEntries _ _ _).mpr ⟨hmb, htx ▸ txPfx_isPrefixOf_txKey b uidB⟩
    refine ⟨hkeylt, List.mem_iff_get?.mp hmema, List.mem_iff_get?.mp hmemb, ?_⟩
    intro i j vA vB hi hj
    exact lt_index_of_lexLt (iterEntries_sorted st _) hi hj hkeylt
  · intro hsrc hma hmb
    have hkeylt : lexLt (NewBlockOperationSourceKey a uidA)
        (NewBlockOperationSourceKey b uidB) = true := by
      unfold NewBlockOperationSourceKey
      rw [← hsrc]
      exact lexLt_secondary_key _ _ _ _ _ _ _ hhb hsb hlt
    have hmema : (NewBlockOperationSourceKey a uidA, StoreVal.hashRef a.hash) ∈
        iterEntries st (GetBlockOperationKeyPrefixSource a.source) :=
      (mem_iterEntries _ _ _).mpr ⟨hma, srcPfx_isPrefixOf_srcKey a uidA⟩
    have hmemb : (NewBlockOperationSourceKey b uidB, StoreVal.hashRef b.hash) ∈
        iterEntries st (GetBlockOperationKeyPrefixSource a.source) :=
      (mem_iterEntries _ _ _).mpr ⟨hmb, hsrc ▸ srcPfx_isPrefixOf_srcKey b uidB⟩
    refine ⟨hkeylt, List.mem_iff_get?.mp hmema, List.mem_iff_get?.mp hmemb, ?_⟩
    intro i j vA vB hi hj
    exact lt_index_of_lexLt (iterEntries_sorted st _) hi hj hkeylt

/-- Concrete operations for the C7 witness: same TxHash `[2]` and Source
`[3]`, heights equal, sequence IDs 1 < 2. -/
def c7a : BlockOperation := ⟨[1, 45, 2], [1], [2], [], [3], [], 1, 1, false⟩

def c7b : BlockOperation := ⟨[4, 45, 2], [4], [2], [], [3], [], 1, 2, false⟩

/-- A concrete store holding both operations' secondary entries (listed out
of order). -/
def c7store : Store :=
  [(NewBlockOperationTxHashKey c7b [1], StoreVal.hashRef c7b.hash),
   (NewBlockOperationTxHashKey c7a [0], StoreVal.hashRef c7a.hash),
   (NewBlockOperationSourceKey c7b [1], StoreVal.hashRef c7b.hash),
   (NewBlockOperationSourceKey c7a [0], StoreVal.hashRef c7a.hash)]

/-- Witness for C7, tx-hash half, at the concrete store: the keys compare
strictly and every iterator position of `a`'s entry precedes every position
of `b`'s. -/
theorem secondary_index_iteration_order_witness :
    (c7b.height < 2 ^ 64 ∧ c7b.sequenceID < 2 ^ 64 ∧
     (c7a.height < c7b.height ∨
       (c7a.height = c7b.height ∧ c7a.sequenceID < c7b.sequenceID)) ∧
     c7a.txHash = c7b.txHash ∧
     (NewBlockOperationTxHashKey c7a [0], StoreVal.hashRef c7a.hash) ∈ c7store ∧
     (NewBlockOperationTxHashKey c7b [1], StoreVal.hashRef c7b.hash) ∈ c7store) ∧
    (lexLt (NewBlockOperationTxHashKey c7a [0])
        (NewBlockOperationTxHashKey c7b [1]) = true ∧
     (∃ i, (iterEntries c7store
         (GetBlockOperationKeyPrefixTxHash c7a.txHash)).get? i =
       some (NewBlockOperationTxHashKey c7a [0], StoreVal.hashRef c7a.hash)) ∧
     (∃ j, (iterEntries c7store
         (GetBlockOperationKeyPrefixTxHash c7a.txHash)).get? j =
       some (NewBlockOperationTxHashKey c7b [1], StoreVal.hashRef c7b.hash)) ∧
     (∀ i j vA vB,
       (iterEntries c7store
           (GetBlockOperationKeyPrefixTxHash c7a.txHash)).get? i =
         some (NewBlockOperationTxHashKey c7a [0], vA) →
       (iterEntries c7store
           (GetBlockOperationKeyPrefixTxHash c7a.txHash)).get? j =
         some (NewBlockOperationTxHashKey c7b [1], vB) → i < j)) :=
  ⟨⟨by decide, by decide, by decide, rfl, by decide, by decide⟩,
   (secondary_index_iteration_order c7store c7a c7b [0] [1]
     (by decide) (by decide) (by decide)).1 rfl (by decide) (by decide)⟩

/-! ## Save histories and index consistency (C6) -/

/-- The primary entry `Save` writes for a record. -/
def primaryEntry (bo : BlockOperation) : List Nat × StoreVal :=
  (GetBlockOperationKey bo.hash, StoreVal.opRecord bo)

/-- The tx-hash index entry `Save` writes for a record. -/
def txEntry (bo : BlockOperation) (uid : List Nat) : List Nat × StoreVal :=
  (NewBlockOperationTxHashKey bo uid, StoreVal.hashRef bo.hash)

/-- The source index entry `Save` writes for a record. -/
def srcEntry (bo : BlockOperation) (uid : List Nat) : List Nat × StoreVal :=
  (NewBlockOperationSourceKey bo uid, StoreVal.hashRef bo.hash)

/-- Number of store entries under the byte prefix `p` whose value is the
JSON-encoded hash `hashv` — the entries "under `p` pointing to `hashv`". -/
def countMatching (st : Store) (p hashv : List Nat) : Nat :=
  (st.filter fun e => p.isPrefixOf e.1 && e.2 == StoreVal.hashRef hashv).length

/-- Run a sequence of `Save` calls (each with its two fresh unique-ID
suffixes), threading the store; failed saves leave the store unchanged. -/
def saveAll : Store → List (BlockOperation × List Nat × List Nat) → Store
  | st, [] => st
  | st, (bo, uidTx, uidSrc) :: rest => saveAll (Save st bo uidTx uidSrc).store rest

/-- Store invariant: every hash-reference entry points at a present primary
record.  Holds for every store built by `Save` calls from the empty store. -/
def hashRefImpliesPrimary (st : Store) : Prop :=
  ∀ k h, (k, StoreVal.hashRef h) ∈ st → hasKey st (GetBlockOperationKey h) = true

theorem hasKey_pair (k1 k2 k : List Nat) (v1 v2 : StoreVal) :
    hasKey [(k1, v1), (k2, v2)] k = ((k1 == k) || (k2 == k)) := by
  simp [hasKey]

/-- Complete case analysis of `Save`: the five outcomes, each with the
branch conditions (expressed on the starting store) and the exact result. -/
theorem Save_analysis (st : Store) (bo : BlockOperation) (uT uS : List Nat) :
    (bo.isSaved = true ∧ Save st bo uT uS = ⟨some SaveErr.AlreadySaved, st, bo⟩) ∨
    (bo.isSaved = false ∧ hasKey st (GetBlockOperationKey bo.hash) = true ∧
      Save st bo uT uS = ⟨some SaveErr.BlockAlreadyExists, st, bo⟩) ∨
    (bo.isSaved = false ∧ hasKey st (GetBlockOperationKey bo.hash) = false ∧
      hasKey st (NewBlockOperationTxHashKey bo uT) = true ∧
      Save st bo uT uS = ⟨some SaveErr.AlreadyExists, st ++ [primaryEntry bo], bo⟩) ∨
    (bo.isSaved = false ∧ hasKey st (GetBlockOperationKey bo.hash) = false ∧
      hasKey st (NewBlockOperationTxHashKey bo uT) = false ∧
      hasKey st (NewBlockOperationSourceKey bo uS) = true ∧
      Save st bo uT uS =
        ⟨some SaveErr.AlreadyExists, st ++ [primaryEntry bo, txEntry bo uT], bo⟩) ∨
    (bo.isSaved = false ∧ hasKey st (GetBlockOperationKey bo.hash) = false ∧
      hasKey st (NewBlockOperationTxHashKey bo uT) = false ∧
      hasKey st (NewBlockOperationSourceKey bo uS) = false ∧
      Save st bo uT uS =
        ⟨none, st ++ [primaryEntry bo, txEntry bo uT, srcEntry bo uS],
          { bo with isSaved := true }⟩) := by
  by_cases h0 : bo.isSaved = true
  · left
    exact ⟨h0, by unfold Save; rw [if_pos h0]⟩
  · have h0' : bo.isSaved = false := by simpa using h0
    by_cases h1 : hasKey st (GetBlockOperationKey bo.hash) = true
    · right; left
      exact ⟨h0', h1, by unfold Save; rw [if_neg h0, if_pos h1]⟩
    · have h1' : hasKey st (GetBlockOperationKey bo.hash) = false := by simpa using h1
      have e1 : stNew st (GetBlockOperationKey bo.hash) (StoreVal.opRecord bo) =
          some (st ++ [primaryEntry bo]) := stNew_of_absent _ h1'
      by_cases h2 : hasKey st (NewBlockOperationTxHashKey bo uT) = true
      · right; right; left
        have e2 : stNew (st ++ [primaryEntry bo]) (NewBlockOperationTxHashKey bo uT)
            (StoreVal.hashRef bo.hash) = none := by
          apply stNew_of_present
          rw [hasKey_append, h2]
          rfl
        exact ⟨h0', h1', h2, by simp [Save, h0', h1', e1, e2]⟩
      · have h2' : hasKey st (NewBlockOperationTxHashKey bo uT) = false := by simpa using h2
        have e2 : stNew (st ++ [primaryEntry bo]) (NewBlockOperationTxHashKey bo uT)
            (StoreVal.hashRef bo.hash) =
            some (st ++ [primaryEntry bo, txEntry bo uT]) := by
          rw [stNew_of_absent _ (by
            rw [hasKey_append, h2', hasKey_singleton, primaryEntry, primary_ne_txKey]
            rfl)]
          rw [List.append_assoc]
          rfl
        by_cases h3 : hasKey st (NewBlockOperationSourceKey bo uS) = true
        · right; right; right; left
          have e3 : stNew (st ++ [primaryEntry bo, txEntry bo uT])
              (NewBlockOperationSourceKey bo uS) (StoreVal.hashRef bo.hash) = none := by
            apply stNew_of_present
            rw [hasKey_append, h3]
            rfl
          exact ⟨h0', h1', h2', h3,
            by simp [Save, h0', h1', e1, e2, e3]⟩
        · have h3' : hasKey st (NewBlockOperationSourceKey bo uS) = false := by
            simpa using h3
          right; right; right; right
          have e3 : stNew (st ++ [primaryEntry bo, txEntry bo uT])
              (NewBlockOperationSourceKey bo uS) (StoreVal.hashRef bo.hash) =
              some (st ++ [primaryEntry bo, txEntry bo uT, srcEntry bo uS]) := by
            rw [stNew_of_absent _ (by
              rw [hasKey_append, h3', hasKey_pair, primaryEntry, txEntry,
                primary_ne_srcKey, txKey_ne_srcKey]
              rfl)]
            rw [List.append_assoc]
            rfl
          exact ⟨h0', h1', h2', h3',
            by simp [Save, h0', h1', e1, e2, e3]⟩

theorem countMatching_append (st1 st2 : Store) (p h : List Nat) :
    countMatching (st1 ++ st2) p h =
      countMatching st1 p h + countMatching st2 p h := by
  unfold countMatching
  rw [List.filter_append, List.length_append]

theorem countMatching_eq_zero (st : Store) (p h : List Nat)
    (hnone : ∀ k, (k, StoreVal.hashRef h) ∉ st) :
    countMatching st p h = 0 := by
  unfold countMatching
  rw [List.length_eq_zero, List.filter_eq_nil_iff]
  rintro ⟨k, v⟩ he
  simp only [Bool.and_eq_true, beq_iff_eq, not_and]
  intro _ hv
  subst hv
  exact hnone k he

theorem Save_hasKey_mono (st : Store) (bo : BlockOperation) (uT uS : List Nat)
    (k : List Nat) (h : hasKey st k = true) :
    hasKey (Save st bo uT uS).store k = true := by
  rcases Save_analysis st bo uT uS with ⟨_, heq⟩ | ⟨_, _, heq⟩ |
    ⟨_, _, _, heq⟩ | ⟨_, _, _, _, heq⟩ | ⟨_, _, _, _, heq⟩ <;>
    simp only [heq] <;>
    first
    | exact h
    | (rw [hasKey_append, h]; rfl)

theorem Save_preserves_inv (st : Store) (bo : BlockOperation)
    (uT uS : List Nat) (hInv : hashRefImpliesPrimary st) :
    hashRefImpliesPrimary (Save st bo uT uS).store := by
  intro k h hmem
  rcases Save_analysis st bo uT uS with ⟨_, heq⟩ | ⟨_, _, heq⟩ |
    ⟨_, _, _, heq⟩ | ⟨_, _, _, _, heq⟩ | ⟨_, _, _, _, heq⟩ <;>
    simp only [heq] at hmem ⊢
  · exact hInv k h hmem
  · exact hInv k h hmem
  · rcases List.mem_append.mp hmem with hm | hm
    · rw [hasKey_append, hInv k h hm]
      rfl
    · rcases List.mem_singleton.mp hm with hm2
      rw [primaryEntry, Prod.mk.injEq] at hm2
      exact absurd hm2.2 (by intro hcon; cases hcon)
  · rcases List.mem_append.mp hmem with hm | hm
    · rw [hasKey_append, hInv k h hm]
      rfl
    · rcases List.mem_cons.mp hm with hm2 | hm2
      · rw [primaryEntry, Prod.mk.injEq] at hm2
        exact absurd hm2.2 (by intro hcon; cases hcon)
      · rcases List.mem_singleton.mp hm2 with hm3
        rw [txEntry, Prod.mk.injEq] at hm3
        obtain ⟨-, hv⟩ := hm3
        injection hv with hh
        subst hh
        rw [hasKey_append]
        have hkey : hasKey [primaryEntry bo, txEntry bo uT]
            (GetBlockOperationKey bo.hash) = true := by
          rw [hasKey_pair, primaryEntry, txEntry]
          simp
        rw [hkey, Bool.or_true]
  · rcases List.mem_append.mp hmem with hm | hm
    · rw [hasKey_append, hInv k h hm]
      rfl
    · have hkey : hasKey [primaryEntry bo, txEntry bo uT, srcEntry bo uS]
          (GetBlockOperationKey bo.hash) = true := by
        simp [hasKey, primaryEntry]
      rcases List.mem_cons.mp hm with hm2 | hm2
      · rw [primaryEntry, Prod.mk.injEq] at hm2
        exact absurd hm2.2 (by intro hcon; cases hcon)
      · rcases List.mem_cons.mp hm2 with hm3 | hm3
        · rw [txEntry, Prod.mk.injEq] at hm3
          obtain ⟨-, hv⟩ := hm3
          injection hv with hh
          subst hh
          rw [hasKey_append, hkey, Bool.or_true]
        · rcases List.mem_singleton.mp hm3 with hm4
          rw [srcEntry, Prod.mk.injEq] at hm4
          obtain ⟨-, hv⟩ := hm4
          injection hv with hh
          subst hh
          rw [hasKey_append, hkey, Bool.or_true]

theorem txPfx_not_isPrefixOf_srcKey (t : List Nat) (bo : BlockOperation)
    (uid : List Nat) :
    (GetBlockOperationKeyPrefixTxHash t).isPrefixOf
      (NewBlockOperationSourceKey bo uid) = false := by
  simp [GetBlockOperationKeyPrefixTxHash, BlockOperationPrefixTxHash,
    NewBlockOperationSourceKey, GetBlockOperationKeyPrefixSource,
    BlockOperationPrefixSource, List.isPrefixOf_cons₂]

theorem srcPfx_not_isPrefixOf_txKey (s : List Nat) (bo : BlockOperation)
    (uid : List Nat) :
    (GetBlockOperationKeyPrefixSource s).isPrefixOf
      (NewBlockOperationTxHashKey bo uid) = false := by
  simp [GetBlockOperationKeyPrefixSource, BlockOperationPrefixSource,
    NewBlockOperationTxHashKey, GetBlockOperationKeyPrefixTxHash,
    BlockOperationPrefixTxHash, List.isPrefixOf_cons₂]

theorem countMatching_new_entries_tx (bo : BlockOperation) (uT uS : List Nat) :
    countMatching [primaryEntry bo, txEntry bo uT, srcEntry bo uS]
      (GetBlockOperationKeyPrefixTxHash bo.txHash) bo.hash = 1 := by
  unfold countMatching
  rw [show List.filter
      (fun e => (GetBlockOperationKeyPrefixTxHash bo.txHash).isPrefixOf e.1 &&
        e.2 == StoreVal.hashRef bo.hash)
      [primaryEntry bo, txEntry bo uT, srcEntry bo uS] = [txEntry bo uT] from ?_]
  · rfl
  · simp [List.filter_cons, primaryEntry, txEntry, srcEntry,
      txPfx_isPrefixOf_txKey, txPfx_not_isPrefixOf_srcKey]

theorem countMatching_new_entries_src (bo : BlockOperation) (uT uS : List Nat) :
    countMatching [primaryEntry bo, txEntry bo uT, srcEntry bo uS]
      (GetBlockOperationKeyPrefixSource bo.source) bo.hash = 1 := by
  unfold countMatching
  rw [show List.filter
      (fun e => (GetBlockOperationKeyPrefixSource bo.source).isPrefixOf e.1 &&
        e.2 == StoreVal.hashRef bo.hash)
      [primaryEntry bo, txEntry bo uT, srcEntry bo uS] = [srcEntry bo uS] from ?_]
  · rfl
  · simp [List.filter_cons, primaryEntry, txEntry, srcEntry,
      srcPfx_isPrefixOf_srcKey, srcPfx_not_isPrefixOf_txKey]

theorem Save_success_counts (st : Store) (bo : BlockOperation)
    (uT uS : List Nat) (hInv : hashRefImpliesPrimary st)
    (hsucc : (Save st bo uT uS).err = none) :
    (Save st bo uT uS).store =
      st ++ [primaryEntry bo, txEntry bo uT, srcEntry bo uS] ∧
    hasKey (Save st bo uT uS).store (GetBlockOperationKey bo.hash) = true ∧
    countMatching (Save st bo uT uS).store
      (GetBlockOperationKeyPrefixTxHash bo.txHash) bo.hash = 1 ∧
    countMatching (Save st bo uT uS).store
      (GetBlockOperationKeyPrefixSource bo.source) bo.hash = 1 := by
  rcases Save_analysis st bo uT uS with ⟨_, heq⟩ | ⟨_, _, heq⟩ |
    ⟨_, _, _, heq⟩ | ⟨_, _, _, _, heq⟩ | ⟨hsv, h1', h2', h3', heq⟩
  · simp only [heq] at hsucc; cases hsucc
  · simp only [heq] at hsucc; cases hsucc
  · simp only [heq] at hsucc; cases hsucc
  · simp only [heq] at hsucc; cases hsucc
  · have hnone : ∀ k, (k, StoreVal.hashRef bo.hash) ∉ st := by
      intro k hk
      have hpk := hInv k bo.hash hk
      rw [h1'] at hpk
      cases hpk
    have hzero : ∀ p, countMatching st p bo.hash = 0 := fun p =>
      countMatching_eq_zero st p bo.hash hnone
    have hkey : hasKey [primaryEntry bo, txEntry bo uT, srcEntry bo uS]
        (GetBlockOperationKey bo.hash) = true := by
      simp [hasKey, primaryEntry]
    refine ⟨by simp only [heq], ?_, ?_, ?_⟩
    · simp only [heq]
      rw [hasKey_append, hkey, Bool.or_true]
    · simp only [heq]
      rw [countMatching_append, hzero, countMatching_new_entries_tx]
    · simp only [heq]
      rw [countMatching_append, hzero, countMatching_new_entries_src]

theorem beq_hashRef_false (x h : List Nat) (hne : x ≠ h) :
    (StoreVal.hashRef x == StoreVal.hashRef h) = false := by
  rw [beq_eq_false_iff_ne]
  intro hcon
  injection hcon with hh
  exact hne hh

theorem countMatching_appended_zero (bo : BlockOperation) (uT uS : List Nat)
    (p h : List Nat) (hne : bo.hash ≠ h) :
    countMatching [primaryEntry bo] p h = 0 ∧
    countMatching [primaryEntry bo, txEntry bo uT] p h = 0 ∧
    countMatching [primaryEntry bo, txEntry bo uT, srcEntry bo uS] p h = 0 := by
  have hb := beq_hashRef_false bo.hash h hne
  refine ⟨?_, ?_, ?_⟩ <;>
    · unfold countMatching
      simp [List.filter_cons, primaryEntry, txEntry, srcEntry, hb]

/-- Once a primary record for `h` is present, a later `Save` (of any record)
keeps it present and leaves the number of secondary entries pointing at `h`
unchanged, for every prefix. -/
theorem Save_preserves_counts (st : Store) (bo : BlockOperation)
    (uT uS : List Nat) (h p : List Nat)
    (hpk : hasKey st (GetBlockOperationKey h) = true) :
    hasKey (Save st bo uT uS).store (GetBlockOperationKey h) = true ∧
    countMatching (Save st bo uT uS).store p h = countMatching st p h := by
  refine ⟨Save_hasKey_mono st bo uT uS _ hpk, ?_⟩
  rcases Save_analysis st bo uT uS with ⟨_, heq⟩ | ⟨_, _, heq⟩ |
    ⟨_, h1', _, heq⟩ | ⟨_, h1', _, _, heq⟩ | ⟨_, h1', _, _, heq⟩ <;>
    simp only [heq]
  · have hne : bo.hash ≠ h := by
      intro hcon
      rw [hcon, hpk] at h1'
      cases h1'
    rw [countMatching_append, (countMatching_appended_zero bo uT uS p h hne).1,
      Nat.add_zero]
  · have hne : bo.hash ≠ h := by
      intro hcon
      rw [hcon, hpk] at h1'
      cases h1'
    rw [countMatching_append,
      (countMatching_appended_zero bo uT uS p h hne).2.1, Nat.add_zero]
  · have hne : bo.hash ≠ h := by
      intro hcon
      rw [hcon, hpk] at h1'
      cases h1'
    rw [countMatching_append,
      (countMatching_appended_zero bo uT uS p h hne).2.2, Nat.add_zero]

theorem saveAll_append (st : Store)
    (l1 l2 : List (BlockOperation × List Nat × List Nat)) :
    saveAll st (l1 ++ l2) = saveAll (saveAll st l1) l2 := by
  induction l1 generalizing st with
  | nil => rfl
  | cons x rest ih =>
    obtain ⟨bo, uT, uS⟩ := x
    exact ih (Save st bo uT uS).store

theorem saveAll_preserves_inv (l : List (BlockOperation × List Nat × List Nat))
    (st : Store) (hInv : hashRefImpliesPrimary st) :
    hashRefImpliesPrimary (saveAll st l) := by
  induction l generalizing st with
  | nil => exact hInv
  | cons x rest ih =>
    obtain ⟨bo, uT, uS⟩ := x
    exact ih _ (Save_preserves_inv st bo uT uS hInv)

theorem saveAll_preserves_counts
    (l : List (BlockOperation × List Nat × List Nat)) (st : Store)
    (h p : List Nat) (hpk : hasKey st (GetBlockOperationKey h) = true) :
    hasKey (saveAll st l) (GetBlockOperationKey h) = true ∧
    countMatching (saveAll st l) p h = countMatching st p h := by
  induction l generalizing st with
  | nil => exact ⟨hpk, rfl⟩
  | cons x rest ih =>
    obtain ⟨bo, uT, uS⟩ := x
    obtain ⟨hk1, hc1⟩ := Save_preserves_counts st bo uT uS h p hpk
    obtain ⟨hk2, hc2⟩ := ih (Save st bo uT uS).store hk1
    refine ⟨hk2, ?_⟩
    show countMatching (saveAll (Save st bo uT uS).store rest) p h =
      countMatching st p h
    rw [hc2, hc1]

/-- C6: in any history of `Save` calls starting from the empty store, a
successful save of `op` writes exactly the primary record plus one tx-index
entry and one source-index entry (both valued `op.Hash`), and in every later
store of the history `ExistsBlockOperation(op.Hash)` holds and exactly one
entry under the `bo-tx-{op.TxHash}-` prefix and one under the
`bo-src-{op.Source}-` prefix point to `op.Hash`. -/
theorem saved_operation_index_consistency
    (pre post : List (BlockOperation × List Nat × List Nat))
    (bo : BlockOperation) (uidTx uidSrc : List Nat)
    (hsucc : (Save (saveAll [] pre) bo uidTx uidSrc).err = none) :
    (Save (saveAll [] pre) bo uidTx uidSrc).store =
      saveAll [] pre ++ [primaryEntry bo, txEntry bo uidTx, srcEntry bo uidSrc] ∧
    ExistsBlockOperation (saveAll [] (pre ++ (bo, uidTx, uidSrc) :: post))
      bo.hash = true ∧
    countMatching (saveAll [] (pre ++ (bo, uidTx, uidSrc) :: post))
      (GetBlockOperationKeyPrefixTxHash bo.txHash) bo.hash = 1 ∧
    countMatching (saveAll [] (pre ++ (bo, uidTx, uidSrc) :: post))
      (GetBlockOperationKeyPrefixSource bo.source) bo.hash = 1 := by
  have hInv : hashRefImpliesPrimary (saveAll [] pre) :=
    saveAll_preserves_inv pre [] (by intro k h hk; cases hk)
  obtain ⟨hstore, hkey, htx, hsrc⟩ :=
    Save_success_counts (saveAll [] pre) bo uidTx uidSrc hInv hsucc
  have hsplit : saveAll [] (pre ++ (bo, uidTx, uidSrc) :: post) =
      saveAll (Save (saveAll [] pre) bo uidTx uidSrc).store post := by
    rw [saveAll_append]
    rfl
  refine ⟨hstore, ?_, ?_, ?_⟩
  · rw [hsplit]
    unfold ExistsBlockOperation
    exact (saveAll_preserves_counts post _ bo.hash [] hkey).1
  · rw [hsplit]
    rw [(saveAll_preserves_counts post _ bo.hash
      (GetBlockOperationKeyPrefixTxHash bo.txHash) hkey).2, htx]
  · rw [hsplit]
    rw [(saveAll_preserves_counts post _ bo.hash
      (GetBlockOperationKeyPrefixSource bo.source) hkey).2, hsrc]

/-- A concrete record for the C6 witness. -/
def c6bo : BlockOperation := ⟨[1, 45, 2], [1], [2], [], [3], [], 1, 1, false⟩

/-- Witness for C6: a single successful save into the empty store. -/
theorem saved_operation_index_consistency_witness :
    (Save (saveAll [] []) c6bo [0] [1]).err = none ∧
    ((Save (saveAll [] []) c6bo [0] [1]).store =
      saveAll [] [] ++ [primaryEntry c6bo, txEntry c6bo [0], srcEntry c6bo [1]] ∧
     ExistsBlockOperation (saveAll [] ([] ++ (c6bo, [0], [1]) :: []))
       c6bo.hash = true ∧
     countMatching (saveAll [] ([] ++ (c6bo, [0], [1]) :: []))
       (GetBlockOperationKeyPrefixTxHash c6bo.txHash) c6bo.hash = 1 ∧
     countMatching (saveAll [] ([] ++ (c6bo, [0], [1]) :: []))
       (GetBlockOperationKeyPrefixSource c6bo.source) c6bo.hash = 1) :=
  ⟨by decide, saved_operation_index_consistency [] [] c6bo [0] [1] (by decide)⟩
